import Mathlib

/-!
# Verification of the redis multi-tenant proxy

A shallow embedding of the multi-tenant key-value proxy described by the
repository: a protocol-aware intermediary that authenticates each client
connection against a tenant directory, rewrites every key-bearing argument
of every command by prepending the tenant's namespace (`username:`), and
forwards the rewritten command to a single backing key-value store, while
stripping the namespace from keys on the return path.

The repository's `src/` holds only the usage example
(`src/example/client/client.py`); the proxy components themselves
(Tenant Directory, Command Classifier, Key Rewriter, Session machine) are
not shipped, so they are modelled from the specification, as noted on each
definition. Keys, values, command names and patterns are byte strings,
modelled as `List Char`.
-/

namespace Proxy

/-- Keys, values, command names and glob patterns are byte strings. -/
abbrev Str := List Char

/-- Modelled from the spec: `CommandSpec.keyArgumentPattern` is one of
{NONE, FIRST, ALL, ALTERNATING_KEY_VALUE, PATTERN, CHANNELS}. -/
inductive KeyArgumentPattern where
  | NONE
  | FIRST
  | ALL
  | ALTERNATING_KEY_VALUE
  | PATTERN
  | CHANNELS
  deriving DecidableEq, Repr

/-- Modelled from the spec: `CommandSpec = {name, keyArgumentPattern, returnsKeys}`. -/
structure CommandSpec where
  name : Str
  keyArgumentPattern : KeyArgumentPattern
  returnsKeys : Bool
  deriving DecidableEq, Repr

/-- Modelled from the spec: the static, process-wide command table, holding the
minimum required classifications: single-key read/write (FIRST), multi-key read
(ALL), multi-key write with alternating key/value pairs (ALTERNATING_KEY_VALUE),
pattern-match enumeration (PATTERN, which echoes keys back), and
publish/subscribe (CHANNELS). -/
def commandTable : List (Str × KeyArgumentPattern × Bool) :=
  [ ("GET".data, .FIRST, false)
  , ("SET".data, .FIRST, false)
  , ("DEL".data, .ALL, false)
  , ("MGET".data, .ALL, false)
  , ("MSET".data, .ALTERNATING_KEY_VALUE, false)
  , ("KEYS".data, .PATTERN, true)
  , ("SUBSCRIBE".data, .CHANNELS, false)
  , ("PUBLISH".data, .CHANNELS, false)
  ]

/-- Modelled from the spec: `classify(commandName) → CommandSpec`; unknown
commands resolve to a PASSTHROUGH spec with `keyArgumentPattern = NONE`. -/
def classify (nm : Str) : CommandSpec :=
  match commandTable.find? (fun e => e.1 == nm) with
  | some e => ⟨nm, e.2.1, e.2.2⟩
  | none => ⟨nm, .NONE, false⟩

/-- Modelled from the spec: errors of the protocol layer. -/
inductive ProtocolError where
  | Malformed
  | UnsupportedCommand
  deriving DecidableEq, Repr

/-- Modelled from the spec: ALTERNATING_KEY_VALUE prefixes every even-indexed
argument (key) and leaves odd-indexed arguments (values) untouched. -/
def prefixAlternating (pfx : Str) : List Str → List Str
  | [] => []
  | [k] => [pfx ++ k]
  | k :: v :: rest => (pfx ++ k) :: v :: prefixAlternating pfx rest

/-- Modelled from the spec: `toUpstream(args, spec, prefix)` rewrites the
key-bearing arguments of a client command by prepending the tenant prefix;
a command classified with a key pattern but carrying fewer arguments than the
pattern requires signals `ProtocolError.Malformed`. -/
def toUpstream (args : List Str) (spec : CommandSpec) (pfx : Str) :
    Except ProtocolError (List Str) :=
  match spec.keyArgumentPattern with
  | .NONE => .ok args
  | .FIRST =>
    match args with
    | [] => .error .Malformed
    | k :: rest => .ok ((pfx ++ k) :: rest)
  | .ALL =>
    match args with
    | [] => .error .Malformed
    | _ => .ok (args.map (fun k => pfx ++ k))
  | .ALTERNATING_KEY_VALUE =>
    match args with
    | [] => .error .Malformed
    | _ => if args.length % 2 = 0 then .ok (prefixAlternating pfx args)
           else .error .Malformed
  | .PATTERN =>
    match args with
    | [] => .error .Malformed
    | pat :: rest => .ok ((pfx ++ pat) :: rest)
  | .CHANNELS =>
    match args with
    | [] => .error .Malformed
    | _ => .ok (args.map (fun k => pfx ++ k))

/-- Whether argument index `i` of a command is a key (or channel) position
under the given key-argument pattern. -/
def isKeyPos (p : KeyArgumentPattern) (i : Nat) : Bool :=
  match p with
  | .NONE => false
  | .FIRST => i == 0
  | .ALL => true
  | .ALTERNATING_KEY_VALUE => i % 2 == 0
  | .PATTERN => i == 0
  | .CHANNELS => true

/-- Strip the tenant prefix from a key echoed back by the store: `some` of the
remainder when the key carries the prefix, `none` otherwise. -/
def stripPfx (pfx k : Str) : Option Str :=
  if pfx.isPrefixOf k then some (k.drop pfx.length) else none

/-- Replies of the backing key-value store as relayed through the proxy. -/
inductive Reply where
  | okR
  | bulk (v : Option Str)
  | vals (vs : List (Option Str))
  | keyArr (ks : List Str)
  | errR (msg : Str)
  deriving DecidableEq, Repr

/-- Modelled from the spec: `fromUpstream(reply, spec, prefix)`: for commands
that echo keys back, strip exactly the prefix length from every returned key,
failing closed — an entry whose key unexpectedly lacks the prefix is dropped
from the reply and counted as a recorded `IntegrityFault`. Other replies pass
unchanged. Returns the relayed reply and the number of faults recorded. -/
def fromUpstream (r : Reply) (spec : CommandSpec) (pfx : Str) : Reply × Nat :=
  if spec.returnsKeys then
    match r with
    | .keyArr ks =>
        (.keyArr (ks.filterMap (stripPfx pfx)),
         (ks.filter (fun k => !(pfx.isPrefixOf k))).length)
    | _ => (r, 0)
  else (r, 0)

/-- Modelled from the spec: the backing key-value store, treated as a
protocol-compliant server — an association list from (already prefixed)
keys to values. -/
abbrev Store := List (Str × Str)

/-- A freshly reset (empty) backing store. -/
def emptyStore : Store := []

/-- Look up a key in the backing store. -/
def storeGet (s : Store) (k : Str) : Option Str :=
  match s.find? (fun e => e.1 == k) with
  | some e => some e.2
  | none => none

/-- Write a key in the backing store, replacing any previous binding. -/
def storeSet (s : Store) (k v : Str) : Store :=
  (k, v) :: s.filter (fun e => !(e.1 == k))

/-- Store a list of alternating key/value arguments (the backing store's
multi-key write). -/
def msetFold (s : Store) : List Str → Store
  | k :: v :: rest => msetFold (storeSet s k v) rest
  | _ => s

/-- The keys written by a list of alternating key/value arguments. -/
def msetKeys : List Str → List Str
  | k :: _ :: rest => k :: msetKeys rest
  | _ => []

/-- Glob matching of the backing store's pattern-enumeration commands:
`*` matches any run of characters, `?` any single character, every other
character matches itself. -/
def globMatch : Str → Str → Bool
  | [], k => k.isEmpty
  | p :: ps, k =>
    if p = '*' then
      match k with
      | [] => globMatch ps []
      | c :: ks => globMatch ps (c :: ks) || globMatch (p :: ps) ks
    else
      match k with
      | [] => false
      | c :: ks => (decide (p = '?') || decide (p = c)) && globMatch ps ks
termination_by p k => p.length + k.length
decreasing_by all_goals (simp only [List.length_cons]; omega)

/-- A string free of glob metacharacters: it matches only itself, literally. -/
def globLiteral (l : Str) : Bool :=
  l.all (fun c => decide (c ≠ '*') && decide (c ≠ '?'))

/-- The keys of the backing store matching a glob pattern, in store order. -/
def storeKeysMatching (s : Store) (pat : Str) : List Str :=
  (s.map (fun e => e.1)).filter (fun k => globMatch pat k)

/-- Modelled from the spec: the backing store executing one (already
rewritten) command: single-key read/write, multi-key read/write,
pattern enumeration; anything else leaves the store unchanged. -/
def upstreamExec (s : Store) (nm : Str) (args : List Str) : Store × Reply :=
  if nm = "SET".data then
    match args with
    | [k, v] => (storeSet s k v, .okR)
    | _ => (s, .errR "ERR".data)
  else if nm = "GET".data then
    match args with
    | [k] => (s, .bulk (storeGet s k))
    | _ => (s, .errR "ERR".data)
  else if nm = "MSET".data then
    (msetFold s args, .okR)
  else if nm = "MGET".data then
    (s, .vals (args.map (storeGet s)))
  else if nm = "KEYS".data then
    match args with
    | [pat] => (s, .keyArr (storeKeysMatching s pat))
    | _ => (s, .errR "ERR".data)
  else (s, .okR)

/-- Modelled from the spec: errors of the authentication layer. -/
inductive AuthError where
  | UnknownUser
  | BadCredential
  deriving DecidableEq, Repr

/-- Errors a session reports to the client before closing. -/
inductive ProxyError where
  | auth (e : AuthError)
  | proto (e : ProtocolError)
  deriving DecidableEq, Repr

/-- Modelled from the spec: `TenantIdentity = {tenantId, prefix}`. -/
structure TenantIdentity where
  tenantId : Str
  pfx : Str
  deriving DecidableEq, Repr

/-- Modelled from the spec and the usage example: the username determines the
tenant namespace — username `tenant1` yields the namespace `tenant1:`. -/
def tenantPfx (username : Str) : Str := username ++ [':']

/-- One entry of the Tenant Directory. -/
structure TenantRecord where
  username : Str
  password : Str
  identity : TenantIdentity
  deriving DecidableEq, Repr

/-- Modelled from the spec: `resolve(username, password)` looks up the
username; fails with `AuthError.UnknownUser` if absent,
`AuthError.BadCredential` if the password mismatches. -/
def resolve (dir : List TenantRecord) (u pw : Str) :
    Except AuthError TenantIdentity :=
  match dir.find? (fun r => r.username == u) with
  | none => .error .UnknownUser
  | some r => if r.password == pw then .ok r.identity else .error .BadCredential

/-- Modelled from the spec: the session states
`CONNECTED → AUTHENTICATING → AUTHENTICATED → CLOSING → CLOSED`. -/
inductive SessionState where
  | CONNECTED
  | AUTHENTICATING
  | AUTHENTICATED
  | CLOSING
  | CLOSED
  deriving DecidableEq, Repr

/-- Modelled from the spec: a Session holds its state, the resolved tenant
identity, whether its upstream connection to the backing store is
established, and the terminal error (if any) reported to the client. -/
structure Session where
  state : SessionState
  identity : Option TenantIdentity
  upstreamConnected : Bool
  reported : Option ProxyError
  deriving DecidableEq, Repr

/-- A session fresh off the listener, before the handshake. -/
def initialSession : Session :=
  ⟨.CONNECTED, none, false, none⟩

/-- Modelled from the spec: the authentication handshake. On success the
session transitions to AUTHENTICATED with the identity bound and an upstream
connection established; on failure it reports an authentication error and
transitions to CLOSING, never touching the upstream. -/
def authenticate (dir : List TenantRecord) (u pw : Str) (sess : Session) :
    Session :=
  match resolve dir u pw with
  | .ok id => { sess with state := .AUTHENTICATED, identity := some id,
                          upstreamConnected := true }
  | .error e => { sess with state := .CLOSING, reported := some (.auth e) }

/-- The observable run state of one session: the session, the backing store,
the stream of commands actually forwarded upstream, the replies relayed to
the client, and the number of integrity faults recorded. -/
structure RunState where
  sess : Session
  store : Store
  sent : List (Str × List Str)
  replies : List Reply
  faults : Nat
  deriving DecidableEq, Repr

/-- Modelled from the spec: one turn of the AUTHENTICATED loop
{read → classify → rewrite-to-upstream → forward → reply →
rewrite-from-upstream → relay}. A malformed command terminates the session
with a protocol error and forwards nothing; outside AUTHENTICATED nothing
happens. -/
def stepCommand (pfx : Str) (st : RunState) (c : Str × List Str) : RunState :=
  if st.sess.state = .AUTHENTICATED then
    let spec := classify c.1
    match toUpstream c.2 spec pfx with
    | .error e =>
        { st with sess := { st.sess with state := .CLOSING,
                                         reported := some (.proto e) } }
    | .ok args =>
        let sr := upstreamExec st.store c.1 args
        let rf := fromUpstream sr.2 spec pfx
        { st with store := sr.1,
                  sent := st.sent ++ [(c.1, args)],
                  replies := st.replies ++ [rf.1],
                  faults := st.faults + rf.2 }
  else st

/-- Drive a whole command sequence through the session loop. -/
def runCommands (pfx : Str) (st : RunState) (cs : List (Str × List Str)) :
    RunState :=
  cs.foldl (stepCommand pfx) st

/-- The run state of a just-authenticated session over a given store. -/
def initRun (sess : Session) (s : Store) : RunState :=
  ⟨sess, s, [], [], 0⟩

/-- Modelled from the spec: a sequence of one tenant's writes applied to the
backing store, each key carrying that tenant's namespace. -/
def applyWrites (pB : Str) (ws : List (Str × Str)) (s : Store) : Store :=
  ws.foldl (fun acc kv => storeSet acc (pB ++ kv.1) kv.2) s

/-- Interleave a key list and a value list into alternating key/value
arguments (as the client builds a multi-key write). -/
def interleave : List Str → List Str → List Str
  | k :: ks, v :: vs => k :: v :: interleave ks vs
  | _, _ => []

/-- The final backing-store contents of one session's command sequence run
against a freshly reset (empty) backing store. -/
def runFromReset (pfx : Str) (sess : Session) (cs : List (Str × List Str)) :
    Store :=
  (runCommands pfx (initRun sess emptyStore) cs).store

/-- A concrete one-tenant directory used to witness the claims. -/
def exampleDir : List TenantRecord :=
  [⟨"tenant1".data, "pw".data, ⟨"t1".data, tenantPfx "tenant1".data⟩⟩]

/-! ### Lemmas about the backing store -/

theorem find?_filter_of_imp (p q : (Str × Str) → Bool) (l : List (Str × Str))
    (h : ∀ a, p a = true → q a = true) :
    (l.filter q).find? p = l.find? p := by
  induction l with
  | nil => rfl
  | cons a l ih =>
    by_cases hq : q a = true
    · by_cases hp : p a = true
      · simp [List.filter_cons, hq, List.find?_cons_of_pos, hp]
      · simp only [List.filter_cons, hq, if_true]
        rw [List.find?_cons_of_neg _ (by simp [hp]),
            List.find?_cons_of_neg _ (by simp [hp]), ih]
    · have hp : ¬ p a = true := fun hpa => hq (h a hpa)
      rw [List.filter_cons, if_neg (by simpa using hq), ih,
          List.find?_cons_of_neg _ (by simp [hp])]

theorem storeGet_storeSet_self (s : Store) (k v : Str) :
    storeGet (storeSet s k v) k = some v := by
  simp [storeGet, storeSet, List.find?_cons_of_pos]

theorem storeGet_storeSet_ne (s : Store) (k v k' : Str) (h : k' ≠ k) :
    storeGet (storeSet s k v) k' = storeGet s k' := by
  unfold storeGet storeSet
  rw [List.find?_cons_of_neg _ (by simpa using fun he => (h he.symm).elim),
      find?_filter_of_imp]
  intro a ha
  simp only [beq_iff_eq] at ha
  simp [ha, h]

theorem storeGet_msetFold_notMem (k : Str) :
    ∀ (args : List Str) (s : Store), k ∉ msetKeys args →
      storeGet (msetFold s args) k = storeGet s k
  | [], _, _ => rfl
  | [_], _, _ => rfl
  | a :: b :: rest, s, h => by
    have hk : ¬ (k = a ∨ k ∈ msetKeys rest) := by simpa [msetKeys] using h
    rw [show msetFold s (a :: b :: rest) = msetFold (storeSet s a b) rest from rfl,
        storeGet_msetFold_notMem k rest _ (fun hm => hk (Or.inr hm)),
        storeGet_storeSet_ne _ _ _ _ (fun he => hk (Or.inl he))]

theorem msetKeys_interleave :
    ∀ (ks vs : List Str), ks.length = vs.length →
      msetKeys (interleave ks vs) = ks
  | [], [], _ => rfl
  | [], _ :: _, h => by simp at h
  | _ :: _, [], h => by simp at h
  | k :: ks, v :: vs, h => by
    have h' : ks.length = vs.length := by simpa using h
    simp [interleave, msetKeys, msetKeys_interleave ks vs h']

theorem mget_msetFold :
    ∀ (ks vs : List Str) (s : Store), ks.Nodup → ks.length = vs.length →
      ks.map (storeGet (msetFold s (interleave ks vs))) = vs.map some
  | [], [], _, _, _ => rfl
  | [], _ :: _, _, _, h => by simp at h
  | _ :: _, [], _, _, h => by simp at h
  | k :: ks, v :: vs, s, hnd, h => by
    have h' : ks.length = vs.length := by simpa using h
    have hnd' : ks.Nodup := hnd.of_cons
    have hk : k ∉ ks := by
      intro hm; exact (List.nodup_cons.mp hnd).1 hm
    have hfold :
        msetFold s (interleave (k :: ks) (v :: vs)) =
          msetFold (storeSet s k v) (interleave ks vs) := rfl
    simp only [List.map_cons, hfold]
    rw [storeGet_msetFold_notMem k (interleave ks vs) _
          (by rw [msetKeys_interleave ks vs h']; exact hk),
        storeGet_storeSet_self,
        mget_msetFold ks vs (storeSet s k v) hnd' h']

/-! ### Lemmas about the key rewriter -/

theorem prefixAlternating_length (pfx : Str) :
    ∀ args, (prefixAlternating pfx args).length = args.length
  | [] => rfl
  | [_] => rfl
  | _ :: _ :: rest => by
    simp [prefixAlternating, prefixAlternating_length pfx rest]

theorem prefixAlternating_getD (pfx : Str) :
    ∀ (args : List Str) (i : Nat), i < args.length →
      (prefixAlternating pfx args).getD i [] =
        (if i % 2 = 0 then pfx ++ args.getD i [] else args.getD i [])
  | [], i, h => by simp at h
  | [k], i, h => by
    have : i = 0 := by simpa using Nat.lt_one_iff.mp (by simpa using h)
    subst this
    simp [prefixAlternating]
  | k :: v :: rest, 0, _ => by simp [prefixAlternating]
  | k :: v :: rest, 1, _ => by simp [prefixAlternating]
  | k :: v :: rest, (i + 2), h => by
    have h' : i < rest.length := by simpa using h
    have ih := prefixAlternating_getD pfx rest i h'
    simp only [prefixAlternating, List.getD_cons_succ, ih, Nat.add_mod_right]

theorem getD_map_of_lt (f : Str → Str) :
    ∀ (l : List Str) (i : Nat), i < l.length →
      (l.map f).getD i [] = f (l.getD i [])
  | [], i, h => by simp at h
  | a :: l, 0, _ => rfl
  | a :: l, (i + 1), h => by
    have h' : i < l.length := by simpa using h
    simp only [List.map_cons, List.getD_cons_succ, getD_map_of_lt f l i h']

theorem prefixAlternating_interleave (pfx : Str) :
    ∀ (ks vs : List Str),
      prefixAlternating pfx (interleave ks vs) =
        interleave (ks.map (fun k => pfx ++ k)) vs
  | [], [] => rfl
  | [], _ :: _ => rfl
  | _ :: _, [] => rfl
  | k :: ks, v :: vs => by
    simp [interleave, prefixAlternating, prefixAlternating_interleave pfx ks vs]

/-- Characterization of `toUpstream` on success: the rewritten argument list
has the same length, each key position carries exactly one prepended prefix
occurrence, and every non-key position is untouched. -/
theorem toUpstream_getD (args out : List Str) (spec : CommandSpec) (pfx : Str)
    (h : toUpstream args spec pfx = .ok out) :
    out.length = args.length ∧
      ∀ i, i < args.length →
        out.getD i [] =
          (if isKeyPos spec.keyArgumentPattern i then pfx ++ args.getD i []
           else args.getD i []) := by
  cases hp : spec.keyArgumentPattern
  case NONE =>
    simp only [toUpstream, hp] at h
    cases h
    exact ⟨rfl, fun i _ => by simp [isKeyPos]⟩
  case FIRST =>
    match args with
    | [] => simp [toUpstream, hp] at h
    | k :: rest =>
      simp only [toUpstream, hp, Except.ok.injEq] at h
      subst h
      refine ⟨by simp, fun i hi => ?_⟩
      match i with
      | 0 => simp [isKeyPos]
      | j + 1 => simp [isKeyPos, List.getD_cons_succ]
  case ALL =>
    match args with
    | [] => simp [toUpstream, hp] at h
    | a :: rest =>
      simp only [toUpstream, hp, Except.ok.injEq] at h
      subst h
      refine ⟨by simp, fun i hi => ?_⟩
      rw [getD_map_of_lt (fun k => pfx ++ k) (a :: rest) i hi]
      simp [isKeyPos]
  case ALTERNATING_KEY_VALUE =>
    match args with
    | [] => simp [toUpstream, hp] at h
    | a :: rest =>
      simp only [toUpstream, hp] at h
      split at h
      · cases h
        refine ⟨prefixAlternating_length pfx (a :: rest), fun i hi => ?_⟩
        rw [prefixAlternating_getD pfx (a :: rest) i hi]
        simp only [isKeyPos, Nat.beq_eq_true_eq]
      · cases h
  case PATTERN =>
    match args with
    | [] => simp [toUpstream, hp] at h
    | k :: rest =>
      simp only [toUpstream, hp, Except.ok.injEq] at h
      subst h
      refine ⟨by simp, fun i hi => ?_⟩
      match i with
      | 0 => simp [isKeyPos]
      | j + 1 => simp [isKeyPos, List.getD_cons_succ]
  case CHANNELS =>
    match args with
    | [] => simp [toUpstream, hp] at h
    | a :: rest =>
      simp only [toUpstream, hp, Except.ok.injEq] at h
      subst h
      refine ⟨by simp, fun i hi => ?_⟩
      rw [getD_map_of_lt (fun k => pfx ++ k) (a :: rest) i hi]
      simp [isKeyPos]

/-! ### Lemmas about prefix stripping -/

theorem stripPfx_append (pfx k : Str) : stripPfx pfx (pfx ++ k) = some k := by
  simp [stripPfx, List.isPrefixOf_iff_prefix, List.prefix_append, List.drop_left]

theorem stripPfx_eq_some (pfx k k0 : Str) :
    stripPfx pfx k = some k0 ↔ k = pfx ++ k0 := by
  constructor
  · intro h
    unfold stripPfx at h
    split at h
    · next hpre =>
      obtain ⟨t, ht⟩ := List.isPrefixOf_iff_prefix.mp hpre
      subst ht
      rw [List.drop_left] at h
      cases h
      rfl
    · cases h
  · intro h
    subst h
    exact stripPfx_append pfx k0

theorem not_prefix_of_other_tenant (pA pB k : Str)
    (hab : ¬ pA <+: pB) (hba : ¬ pB <+: pA) :
    ¬ pA <+: (pB ++ k) := by
  intro h
  obtain ⟨t, ht⟩ := h
  rcases List.append_eq_append_iff.mp ht with ⟨a, ha, _⟩ | ⟨c, hc, _⟩
  · exact hab ⟨a, ha.symm⟩
  · exact hba ⟨c, hc.symm⟩

/-! ### Lemmas about glob matching with a literal namespace segment -/

theorem globMatch_literal_append (pfx : Str) (hl : globLiteral pfx = true) :
    ∀ (pat k : Str),
      globMatch (pfx ++ pat) k =
        (pfx.isPrefixOf k && globMatch pat (k.drop pfx.length)) := by
  induction pfx with
  | nil => intro pat k; simp [List.isPrefixOf]
  | cons c rest ih =>
    have hc : (c ≠ '*' ∧ c ≠ '?') ∧ globLiteral rest = true := by
      simpa [globLiteral, List.all_cons, -ne_eq] using hl
    intro pat k
    cases k with
    | nil =>
      rw [List.cons_append, globMatch]
      simp [hc.1.1, List.isPrefixOf]
    | cons d ks =>
      rw [List.cons_append, globMatch]
      simp only [hc.1.1, if_false, hc.1.2, decide_eq_true_eq,
        decide_eq_false_iff_not, Bool.false_or, ih hc.2 pat ks,
        List.isPrefixOf, List.length_cons, List.drop_succ_cons,
        Bool.and_assoc]
      rcases instDecidableEqChar c d with h | h
      · simp [h, beq_eq_false_iff_ne, Ne, h]
      · subst h; simp

theorem filter_map_fst_filter_ne (m : Str → Bool) (kB : Str)
    (hm : m kB = false) :
    ∀ s : Store,
      ((s.filter (fun e => !(e.1 == kB))).map (fun e => e.1)).filter m =
        (s.map (fun e => e.1)).filter m := by
  intro s
  induction s with
  | nil => rfl
  | cons e s ih =>
    by_cases he : e.1 = kB
    · rw [List.filter_cons, if_neg (by simp [he]), ih, List.map_cons,
          List.filter_cons, if_neg (by simp [he, hm])]
    · rw [List.filter_cons, if_pos (by simp [he]), List.map_cons,
          List.map_cons, List.filter_cons, List.filter_cons, ih]

theorem storeKeysMatching_storeSet_notMatch (s : Store) (pat kB v : Str)
    (h : globMatch pat kB = false) :
    storeKeysMatching (storeSet s kB v) pat = storeKeysMatching s pat := by
  unfold storeKeysMatching storeSet
  rw [List.map_cons, List.filter_cons, if_neg (by simp [h]),
      filter_map_fst_filter_ne _ kB h s]

/-- A tenant's pattern enumeration is unchanged by any sequence of another
tenant's writes, as long as neither tenant's namespace is a prefix of the
other's and the enumerating tenant's namespace is glob-literal. -/
theorem storeKeysMatching_applyWrites (pA pat pB : Str)
    (hl : globLiteral pA = true) (hab : ¬ pA <+: pB) (hba : ¬ pB <+: pA) :
    ∀ (ws : List (Str × Str)) (s : Store),
      storeKeysMatching (applyWrites pB ws s) (pA ++ pat) =
        storeKeysMatching s (pA ++ pat) := by
  intro ws
  induction ws with
  | nil => intro s; rfl
  | cons w ws ih =>
    intro s
    have hnp : pA.isPrefixOf (pB ++ w.1) = false := by
      rw [← Bool.not_eq_true]
      intro hc
      exact not_prefix_of_other_tenant pA pB w.1 hab hba
        ( List.isPrefixOf_iff_prefix.mp hc)
    have hnm : globMatch (pA ++ pat) (pB ++ w.1) = false := by
      rw [globMatch_literal_append pA hl pat (pB ++ w.1), hnp,
          Bool.false_and]
    show storeKeysMatching (applyWrites pB ws (storeSet s (pB ++ w.1) w.2))
        (pA ++ pat) = _
    rw [ih (storeSet s (pB ++ w.1) w.2),
        storeKeysMatching_storeSet_notMatch s (pA ++ pat) (pB ++ w.1) w.2 hnm]

/-! ### Lemmas about the session loop -/

theorem runCommands_not_authed (pfx : Str) (st : RunState)
    (h : st.sess.state ≠ .AUTHENTICATED) :
    ∀ cs, runCommands pfx st cs = st := by
  intro cs
  induction cs with
  | nil => rfl
  | cons c cs ih =>
    show runCommands pfx (stepCommand pfx st c) cs = st
    rw [show stepCommand pfx st c = st from if_neg h, ih]

/-! ### Computation rules for concrete commands -/

theorem classify_SET : classify "SET".data = ⟨"SET".data, .FIRST, false⟩ := rfl

theorem classify_GET : classify "GET".data = ⟨"GET".data, .FIRST, false⟩ := rfl

theorem classify_MSET :
    classify "MSET".data = ⟨"MSET".data, .ALTERNATING_KEY_VALUE, false⟩ := rfl

theorem classify_MGET : classify "MGET".data = ⟨"MGET".data, .ALL, false⟩ := rfl

theorem classify_KEYS : classify "KEYS".data = ⟨"KEYS".data, .PATTERN, true⟩ := rfl

theorem upstreamExec_SET (s : Store) (k v : Str) :
    upstreamExec s "SET".data [k, v] = (storeSet s k v, .okR) := rfl

theorem upstreamExec_GET (s : Store) (k : Str) :
    upstreamExec s "GET".data [k] = (s, .bulk (storeGet s k)) := rfl

theorem upstreamExec_MSET (s : Store) (args : List Str) :
    upstreamExec s "MSET".data args = (msetFold s args, .okR) := rfl

theorem upstreamExec_MGET (s : Store) (args : List Str) :
    upstreamExec s "MGET".data args = (s, .vals (args.map (storeGet s))) := rfl

theorem upstreamExec_KEYS (s : Store) (pat : Str) :
    upstreamExec s "KEYS".data [pat] = (s, .keyArr (storeKeysMatching s pat)) :=
  rfl

theorem fromUpstream_not_returnsKeys (r : Reply) (spec : CommandSpec)
    (pfx : Str) (h : spec.returnsKeys = false) :
    fromUpstream r spec pfx = (r, 0) := by
  unfold fromUpstream
  rw [h]
  simp

theorem authenticate_ok (dir : List TenantRecord) (u pw : Str)
    (id : TenantIdentity) (h : resolve dir u pw = .ok id) :
    authenticate dir u pw initialSession =
      ⟨.AUTHENTICATED, some id, true, none⟩ := by
  unfold authenticate
  rw [h]
  rfl

theorem stepCommand_eq_of_ok (pfx : Str) (st : RunState) (c : Str × List Str)
    (args : List Str) (h : st.sess.state = .AUTHENTICATED)
    (hok : toUpstream c.2 (classify c.1) pfx = .ok args) :
    stepCommand pfx st c =
      { st with
          store := (upstreamExec st.store c.1 args).1,
          sent := st.sent ++ [(c.1, args)],
          replies := st.replies ++
            [(fromUpstream (upstreamExec st.store c.1 args).2
                (classify c.1) pfx).1],
          faults := st.faults +
            (fromUpstream (upstreamExec st.store c.1 args).2
                (classify c.1) pfx).2 } := by
  unfold stepCommand
  rw [if_pos h]
  simp only [hok]

theorem stepCommand_eq_of_error (pfx : Str) (st : RunState)
    (c : Str × List Str) (e : ProtocolError)
    (h : st.sess.state = .AUTHENTICATED)
    (herr : toUpstream c.2 (classify c.1) pfx = .error e) :
    stepCommand pfx st c =
      { st with sess := { st.sess with state := .CLOSING,
                                       reported := some (.proto e) } } := by
  unfold stepCommand
  rw [if_pos h]
  simp only [herr]

theorem fromUpstream_okR (spec : CommandSpec) (pfx : Str) :
    fromUpstream .okR spec pfx = (.okR, 0) := by
  unfold fromUpstream
  split <;> rfl

theorem fromUpstream_bulk (spec : CommandSpec) (pfx : Str) (v : Option Str) :
    fromUpstream (.bulk v) spec pfx = (.bulk v, 0) := by
  unfold fromUpstream
  split <;> rfl

theorem fromUpstream_vals (spec : CommandSpec) (pfx : Str)
    (vs : List (Option Str)) :
    fromUpstream (.vals vs) spec pfx = (.vals vs, 0) := by
  unfold fromUpstream
  split <;> rfl

/-! ### The claims -/

/-- Claim C1: for every (username, password) pair the Tenant Directory
resolves to an identity, a single-key write of `v` under `k` followed by a
read of `k` through the proxy forwards both commands upstream with the key
argument rewritten to `prefix ++ k`, relays `v` back for the read, and leaves
the backing store holding `v` under `prefix ++ k`. -/
theorem claim_C1_single_key_roundtrip (dir : List TenantRecord) (u pw : Str)
    (id : TenantIdentity) (k v : Str) (s : Store)
    (h : resolve dir u pw = .ok id) :
    ∀ fin, fin = runCommands id.pfx
        (initRun (authenticate dir u pw initialSession) s)
        [("SET".data, [k, v]), ("GET".data, [k])] →
      fin.sent = [("SET".data, [id.pfx ++ k, v]),
                  ("GET".data, [id.pfx ++ k])] ∧
      fin.replies = [.okR, .bulk (some v)] ∧
      storeGet fin.store (id.pfx ++ k) = some v := by
  intro fin hfin
  rw [authenticate_ok dir u pw id h] at hfin
  have hstep1 : stepCommand id.pfx
      (initRun ⟨.AUTHENTICATED, some id, true, none⟩ s)
      ("SET".data, [k, v]) =
      ⟨⟨.AUTHENTICATED, some id, true, none⟩, storeSet s (id.pfx ++ k) v,
       [("SET".data, [id.pfx ++ k, v])], [.okR], 0⟩ := by
    rw [stepCommand_eq_of_ok id.pfx _ _ [id.pfx ++ k, v] rfl
          (by rw [classify_SET]; rfl)]
    rw [upstreamExec_SET, fromUpstream_okR]
    rfl
  have hstep2 : stepCommand id.pfx
      (⟨⟨.AUTHENTICATED, some id, true, none⟩, storeSet s (id.pfx ++ k) v,
        [("SET".data, [id.pfx ++ k, v])], [.okR], 0⟩ : RunState)
      ("GET".data, [k]) =
      ⟨⟨.AUTHENTICATED, some id, true, none⟩, storeSet s (id.pfx ++ k) v,
       [("SET".data, [id.pfx ++ k, v]), ("GET".data, [id.pfx ++ k])],
       [.okR, .bulk (some v)], 0⟩ := by
    rw [stepCommand_eq_of_ok id.pfx _ _ [id.pfx ++ k] rfl
          (by rw [classify_GET]; rfl)]
    rw [upstreamExec_GET, fromUpstream_bulk,
        storeGet_storeSet_self s (id.pfx ++ k) v]
    rfl
  have hrun : runCommands id.pfx
      (initRun ⟨.AUTHENTICATED, some id, true, none⟩ s)
      [("SET".data, [k, v]), ("GET".data, [k])] =
      ⟨⟨.AUTHENTICATED, some id, true, none⟩, storeSet s (id.pfx ++ k) v,
       [("SET".data, [id.pfx ++ k, v]), ("GET".data, [id.pfx ++ k])],
       [.okR, .bulk (some v)], 0⟩ := by
    show stepCommand id.pfx (stepCommand id.pfx
        (initRun ⟨.AUTHENTICATED, some id, true, none⟩ s)
        ("SET".data, [k, v])) ("GET".data, [k]) = _
    rw [hstep1, hstep2]
  rw [hrun] at hfin
  subst hfin
  exact ⟨rfl, rfl, storeGet_storeSet_self s (id.pfx ++ k) v⟩

/-- Witness for C1 at a concrete directory, tenant, key and value. -/
theorem claim_C1_witness :
    resolve [⟨"tenant1".data, "pw".data,
        ⟨"t1".data, tenantPfx "tenant1".data⟩⟩] "tenant1".data "pw".data =
      .ok ⟨"t1".data, tenantPfx "tenant1".data⟩ ∧
    (∀ fin, fin = runCommands (tenantPfx "tenant1".data)
        (initRun (authenticate [⟨"tenant1".data, "pw".data,
            ⟨"t1".data, tenantPfx "tenant1".data⟩⟩] "tenant1".data "pw".data
            initialSession) emptyStore)
        [("SET".data, ["k".data, "v".data]), ("GET".data, ["k".data])] →
      fin.sent = [("SET".data, [tenantPfx "tenant1".data ++ "k".data,
                                "v".data]),
                  ("GET".data, [tenantPfx "tenant1".data ++ "k".data])] ∧
      fin.replies = [.okR, .bulk (some "v".data)] ∧
      storeGet fin.store (tenantPfx "tenant1".data ++ "k".data) =
        some "v".data) :=
  ⟨by rfl,
   claim_C1_single_key_roundtrip
     [⟨"tenant1".data, "pw".data, ⟨"t1".data, tenantPfx "tenant1".data⟩⟩]
     "tenant1".data "pw".data ⟨"t1".data, tenantPfx "tenant1".data⟩
     "k".data "v".data emptyStore (by rfl)⟩

theorem interleave_length :
    ∀ (ks vs : List Str), ks.length = vs.length →
      (interleave ks vs).length = 2 * ks.length
  | [], [], _ => rfl
  | [], _ :: _, h => by simp at h
  | _ :: _, [], h => by simp at h
  | k :: ks, v :: vs, h => by
    have h' : ks.length = vs.length := by simpa using h
    simp only [interleave, List.length_cons, interleave_length ks vs h']
    omega

theorem interleave_ne_nil :
    ∀ (ks vs : List Str), ks ≠ [] → ks.length = vs.length →
      interleave ks vs ≠ []
  | [], _, hne, _ => absurd rfl hne
  | _ :: _, [], _, h => by simp at h
  | k :: ks, v :: vs, _, _ => by simp [interleave]

theorem toUpstream_AKV (args : List Str) (pfx : Str) (spec : CommandSpec)
    (h : spec.keyArgumentPattern = .ALTERNATING_KEY_VALUE)
    (hne : args ≠ []) (hev : args.length % 2 = 0) :
    toUpstream args spec pfx = .ok (prefixAlternating pfx args) := by
  unfold toUpstream
  rw [h]
  cases args with
  | nil => exact absurd rfl hne
  | cons a rest =>
    show (if (a :: rest).length % 2 = 0
          then Except.ok (prefixAlternating pfx (a :: rest))
          else Except.error ProtocolError.Malformed) =
        Except.ok (prefixAlternating pfx (a :: rest))
    rw [if_pos hev]

theorem stepCommand_parts (pfx : Str) (sess : Session) (s : Store)
    (sent : List (Str × List Str)) (replies : List Reply) (faults : Nat)
    (nm : Str) (args out : List Str) (hs : sess.state = .AUTHENTICATED)
    (hok : toUpstream args (classify nm) pfx = .ok out) :
    stepCommand pfx ⟨sess, s, sent, replies, faults⟩ (nm, args) =
      ⟨sess, (upstreamExec s nm out).1, sent ++ [(nm, out)],
       replies ++
         [(fromUpstream (upstreamExec s nm out).2 (classify nm) pfx).1],
       faults +
         (fromUpstream (upstreamExec s nm out).2 (classify nm) pfx).2⟩ := by
  unfold stepCommand
  rw [if_pos hs]
  simp only [hok]

/-- Claim C4: multi-key write with alternating key/value pairs and multi-key
read are inverses through the proxy: for distinct keys, writing the pairs
then reading the key list returns the values in order; the write rewrites
exactly the even-indexed (key) positions, never the odd-indexed (value)
positions, and the read rewrites every key argument. -/
theorem claim_C4_mset_mget_inverse (pfx : Str) (ks vs : List Str) (s : Store)
    (sess : Session) (hs : sess.state = .AUTHENTICATED)
    (hnd : ks.Nodup) (hlen : ks.length = vs.length) (hne : ks ≠ []) :
    ∀ fin, fin = runCommands pfx (initRun sess s)
        [("MSET".data, interleave ks vs), ("MGET".data, ks)] →
      fin.sent = [("MSET".data, interleave (ks.map (fun k => pfx ++ k)) vs),
                  ("MGET".data, ks.map (fun k => pfx ++ k))] ∧
      fin.replies = [.okR, .vals (vs.map some)] := by
  intro fin hfin
  have hknd : (ks.map (fun k => pfx ++ k)).Nodup :=
    hnd.map (fun a b hab => List.append_cancel_left hab)
  have hklen : (ks.map (fun k => pfx ++ k)).length = vs.length := by
    simpa using hlen
  have hok1 : toUpstream (interleave ks vs) (classify "MSET".data) pfx =
      .ok (interleave (ks.map (fun k => pfx ++ k)) vs) := by
    rw [classify_MSET,
        toUpstream_AKV (interleave ks vs) pfx _ rfl
          (interleave_ne_nil ks vs hne hlen)
          (by rw [interleave_length ks vs hlen]; omega),
        prefixAlternating_interleave]
  have hok2 : toUpstream ks (classify "MGET".data) pfx =
      .ok (ks.map (fun k => pfx ++ k)) := by
    rw [classify_MGET]
    cases ks with
    | nil => exact absurd rfl hne
    | cons a rest => rfl
  have hstep1 : stepCommand pfx ⟨sess, s, [], [], 0⟩
      ("MSET".data, interleave ks vs) =
      ⟨sess, msetFold s (interleave (ks.map (fun k => pfx ++ k)) vs),
       [("MSET".data, interleave (ks.map (fun k => pfx ++ k)) vs)],
       [.okR], 0⟩ := by
    rw [stepCommand_parts pfx sess s [] [] 0 "MSET".data _ _ hs hok1]
    rfl
  have hm := mget_msetFold (ks.map (fun k => pfx ++ k)) vs s hknd hklen
  have hstep2 : stepCommand pfx
      (⟨sess, msetFold s (interleave (ks.map (fun k => pfx ++ k)) vs),
        [("MSET".data, interleave (ks.map (fun k => pfx ++ k)) vs)],
        [.okR], 0⟩ : RunState) ("MGET".data, ks) =
      ⟨sess, msetFold s (interleave (ks.map (fun k => pfx ++ k)) vs),
       [("MSET".data, interleave (ks.map (fun k => pfx ++ k)) vs),
        ("MGET".data, ks.map (fun k => pfx ++ k))],
       [.okR, .vals (vs.map some)], 0⟩ := by
    rw [stepCommand_parts pfx sess _ _ _ 0 "MGET".data ks _ hs hok2]
    show (⟨sess, msetFold s (interleave (ks.map (fun k => pfx ++ k)) vs),
       [("MSET".data, interleave (ks.map (fun k => pfx ++ k)) vs),
        ("MGET".data, ks.map (fun k => pfx ++ k))],
       [.okR, .vals ((ks.map (fun k => pfx ++ k)).map
          (storeGet (msetFold s
            (interleave (ks.map (fun k => pfx ++ k)) vs))))], 0⟩ : RunState) = _
    rw [hm]
  have hrun : runCommands pfx (initRun sess s)
      [("MSET".data, interleave ks vs), ("MGET".data, ks)] =
      ⟨sess, msetFold s (interleave (ks.map (fun k => pfx ++ k)) vs),
       [("MSET".data, interleave (ks.map (fun k => pfx ++ k)) vs),
        ("MGET".data, ks.map (fun k => pfx ++ k))],
       [.okR, .vals (vs.map some)], 0⟩ := by
    show stepCommand pfx (stepCommand pfx ⟨sess, s, [], [], 0⟩
        ("MSET".data, interleave ks vs)) ("MGET".data, ks) = _
    rw [hstep1, hstep2]
  rw [hrun] at hfin
  subst hfin
  exact ⟨rfl, rfl⟩

/-- Witness for C4 at the spec's concrete scenario: keys `a`, `b` with
values `1`, `2`. -/
theorem claim_C4_witness :
    (⟨.AUTHENTICATED, none, true, none⟩ : Session).state = .AUTHENTICATED ∧
    ["a".data, "b".data].Nodup ∧
    ["a".data, "b".data].length = ["1".data, "2".data].length ∧
    ["a".data, "b".data] ≠ [] ∧
    (∀ fin, fin = runCommands "tenant1:".data
        (initRun ⟨.AUTHENTICATED, none, true, none⟩ emptyStore)
        [("MSET".data, interleave ["a".data, "b".data] ["1".data, "2".data]),
         ("MGET".data, ["a".data, "b".data])] →
      fin.sent = [("MSET".data,
          interleave (["a".data, "b".data].map
            (fun k => "tenant1:".data ++ k)) ["1".data, "2".data]),
        ("MGET".data, ["a".data, "b".data].map
            (fun k => "tenant1:".data ++ k))] ∧
      fin.replies = [.okR, .vals (["1".data, "2".data].map some)]) :=
  ⟨rfl, by decide, by decide, by decide,
   claim_C4_mset_mget_inverse "tenant1:".data ["a".data, "b".data]
     ["1".data, "2".data] emptyStore ⟨.AUTHENTICATED, none, true, none⟩
     rfl (by decide) (by decide) (by decide)⟩

/-- Claim C5: an unknown username resolves to `AuthError.UnknownUser` and a
mismatched password to `AuthError.BadCredential`; in either case the session
transitions to CLOSING with the authentication error reported, and no
upstream connection is ever established. -/
theorem claim_C5_auth_failure (dir : List TenantRecord) (u pw : Str) :
    (dir.find? (fun r => r.username == u) = none →
      resolve dir u pw = .error .UnknownUser) ∧
    (∀ r, dir.find? (fun r => r.username == u) = some r → r.password ≠ pw →
      resolve dir u pw = .error .BadCredential) ∧
    (∀ e, resolve dir u pw = .error e →
      (authenticate dir u pw initialSession).state = .CLOSING ∧
      (authenticate dir u pw initialSession).upstreamConnected = false ∧
      (authenticate dir u pw initialSession).reported = some (.auth e)) := by
  refine ⟨?_, ?_, ?_⟩
  · intro h
    unfold resolve
    rw [h]
  · intro r hr hne
    unfold resolve
    rw [hr]
    show (if (r.password == pw) = true then Except.ok r.identity
          else Except.error AuthError.BadCredential) =
        Except.error AuthError.BadCredential
    rw [if_neg (by simpa using hne)]
  · intro e he
    unfold authenticate
    rw [he]
    exact ⟨rfl, rfl, rfl⟩

/-- Witness for C5: the example directory rejects the unknown user `nobody`
with UnknownUser and the wrong password `bad` for `tenant1` with
BadCredential, and the latter closes the session with no upstream
connection. -/
theorem claim_C5_witness :
    resolve exampleDir "nobody".data "pw".data = .error .UnknownUser ∧
    resolve exampleDir "tenant1".data "bad".data = .error .BadCredential ∧
    ((authenticate exampleDir "tenant1".data "bad".data
        initialSession).state = .CLOSING ∧
     (authenticate exampleDir "tenant1".data "bad".data
        initialSession).upstreamConnected = false ∧
     (authenticate exampleDir "tenant1".data "bad".data
        initialSession).reported = some (.auth .BadCredential)) :=
  ⟨(claim_C5_auth_failure exampleDir "nobody".data "pw".data).1 (by rfl),
   (claim_C5_auth_failure exampleDir "tenant1".data "bad".data).2.1
     ⟨"tenant1".data, "pw".data, ⟨"t1".data, tenantPfx "tenant1".data⟩⟩
     (by rfl) (by decide),
   (claim_C5_auth_failure exampleDir "tenant1".data "bad".data).2.2
     .BadCredential (by rfl)⟩

/-- Claim C6: a command whose classified key-argument pattern requires more
arguments than it carries is rejected with `ProtocolError.Malformed`: the
session transitions to CLOSING with the protocol error reported, nothing is
forwarded upstream for that command, and the upstream command stream and the
store stay unchanged for the rest of the session. -/
theorem claim_C6_malformed_terminates (pfx : Str) (st : RunState)
    (c : Str × List Str) (hs : st.sess.state = .AUTHENTICATED)
    (herr : toUpstream c.2 (classify c.1) pfx = .error .Malformed) :
    (stepCommand pfx st c).sent = st.sent ∧
    (stepCommand pfx st c).store = st.store ∧
    (stepCommand pfx st c).sess.state = .CLOSING ∧
    (stepCommand pfx st c).sess.reported = some (.proto .Malformed) ∧
    ∀ cs, (runCommands pfx (stepCommand pfx st c) cs).sent = st.sent ∧
          (runCommands pfx (stepCommand pfx st c) cs).store = st.store := by
  have h := stepCommand_eq_of_error pfx st c .Malformed hs herr
  rw [h]
  refine ⟨rfl, rfl, rfl, rfl, fun cs => ?_⟩
  rw [runCommands_not_authed pfx _
        (fun hco => SessionState.noConfusion hco) cs]
  exact ⟨rfl, rfl⟩

/-- Witness for C6: a KEYS command missing its pattern argument, issued on an
authenticated session, closes the session with Malformed and leaves the
upstream stream and the store untouched, including across a later GET. -/
theorem claim_C6_witness :
    (⟨⟨.AUTHENTICATED, none, true, none⟩, emptyStore, [], [], 0⟩ :
        RunState).sess.state = .AUTHENTICATED ∧
    toUpstream ("KEYS".data, ([] : List Str)).2
      (classify ("KEYS".data, ([] : List Str)).1) "tenant1:".data =
      .error .Malformed ∧
    (stepCommand "tenant1:".data
        ⟨⟨.AUTHENTICATED, none, true, none⟩, emptyStore, [], [], 0⟩
        ("KEYS".data, [])).sent = [] ∧
    (stepCommand "tenant1:".data
        ⟨⟨.AUTHENTICATED, none, true, none⟩, emptyStore, [], [], 0⟩
        ("KEYS".data, [])).sess.state = .CLOSING ∧
    (runCommands "tenant1:".data
        (stepCommand "tenant1:".data
          ⟨⟨.AUTHENTICATED, none, true, none⟩, emptyStore, [], [], 0⟩
          ("KEYS".data, []))
        [("GET".data, ["x".data])]).sent = [] := by
  have h := claim_C6_malformed_terminates "tenant1:".data
    ⟨⟨.AUTHENTICATED, none, true, none⟩, emptyStore, [], [], 0⟩
    ("KEYS".data, []) rfl (by rfl)
  exact ⟨rfl, by rfl, h.1, h.2.2.1, (h.2.2.2.2 [("GET".data, ["x".data])]).1⟩

/-- Claim C7: a command name absent from the command table classifies as a
PASSTHROUGH spec with `keyArgumentPattern = NONE`; its argument list is
rewritten to itself and forwarded upstream byte-for-byte unchanged. -/
theorem claim_C7_unknown_passthrough (nm : Str) (args : List Str) (pfx : Str)
    (sess : Session) (s : Store) (sent : List (Str × List Str))
    (replies : List Reply) (faults : Nat)
    (hn : commandTable.find? (fun e => e.1 == nm) = none)
    (hs : sess.state = .AUTHENTICATED) :
    classify nm = ⟨nm, .NONE, false⟩ ∧
    toUpstream args (classify nm) pfx = .ok args ∧
    (stepCommand pfx ⟨sess, s, sent, replies, faults⟩ (nm, args)).sent =
      sent ++ [(nm, args)] := by
  have hc : classify nm = ⟨nm, .NONE, false⟩ := by
    unfold classify
    rw [hn]
  have hok : toUpstream args (classify nm) pfx = .ok args := by
    rw [hc]
    rfl
  refine ⟨hc, hok, ?_⟩
  rw [stepCommand_parts pfx sess s sent replies faults nm args args hs hok]

/-- Witness for C7: the unclassified command `PING` with one argument is
forwarded verbatim. -/
theorem claim_C7_witness :
    commandTable.find? (fun e => e.1 == "PING".data) = none ∧
    classify "PING".data = ⟨"PING".data, .NONE, false⟩ ∧
    toUpstream ["x".data] (classify "PING".data) "tenant1:".data =
      .ok ["x".data] ∧
    (stepCommand "tenant1:".data
        ⟨⟨.AUTHENTICATED, none, true, none⟩, emptyStore, [], [], 0⟩
        ("PING".data, ["x".data])).sent = [("PING".data, ["x".data])] := by
  have h := claim_C7_unknown_passthrough "PING".data ["x".data]
    "tenant1:".data ⟨.AUTHENTICATED, none, true, none⟩ emptyStore [] [] 0
    (by rfl) rfl
  exact ⟨by rfl, h.1, h.2.1, h.2.2⟩

theorem runCommands_store_independent (pfx : Str) :
    ∀ (cs : List (Str × List Str)) (sess1 sess2 : Session) (s : Store)
      (sent1 sent2 : List (Str × List Str)) (r1 r2 : List Reply)
      (f1 f2 : Nat),
      sess1.state = .AUTHENTICATED → sess2.state = .AUTHENTICATED →
      (runCommands pfx ⟨sess1, s, sent1, r1, f1⟩ cs).store =
        (runCommands pfx ⟨sess2, s, sent2, r2, f2⟩ cs).store := by
  intro cs
  induction cs with
  | nil => intro sess1 sess2 s sent1 sent2 r1 r2 f1 f2 _ _; rfl
  | cons c cs ih =>
    intro sess1 sess2 s sent1 sent2 r1 r2 f1 f2 h1 h2
    show (runCommands pfx (stepCommand pfx ⟨sess1, s, sent1, r1, f1⟩ c) cs).store
        = (runCommands pfx (stepCommand pfx ⟨sess2, s, sent2, r2, f2⟩ c) cs).store
    rcases hto : toUpstream c.2 (classify c.1) pfx with e | args
    · rcases c with ⟨nm, cargs⟩
      rw [stepCommand_eq_of_error pfx _ _ e h1 hto,
          stepCommand_eq_of_error pfx _ _ e h2 hto,
          runCommands_not_authed pfx _
            (fun hco => SessionState.noConfusion hco) cs,
          runCommands_not_authed pfx _
            (fun hco => SessionState.noConfusion hco) cs]
    · rcases c with ⟨nm, cargs⟩
      rw [stepCommand_parts pfx sess1 s sent1 r1 f1 nm cargs args h1 hto,
          stepCommand_parts pfx sess2 s sent2 r2 f2 nm cargs args h2 hto]
      exact ih sess1 sess2 _ _ _ _ _ _ _ h1 h2

/-- Claim C9: replaying one authenticated session's command sequence is
deterministic with respect to the backing store: any two runs of the same
sequence, each against a freshly reset (empty) backing store and each under
an authenticated session carrying the same prefix, end with identical
backing-store contents. -/
theorem claim_C9_deterministic_replay (pfx : Str) (sess1 sess2 : Session)
    (cs : List (Str × List Str)) (h1 : sess1.state = .AUTHENTICATED)
    (h2 : sess2.state = .AUTHENTICATED) :
    runFromReset pfx sess1 cs = runFromReset pfx sess2 cs := by
  unfold runFromReset
  exact runCommands_store_independent pfx cs sess1 sess2 emptyStore
    [] [] [] [] 0 0 h1 h2

/-- Witness for C9: two authenticated sessions (differing in every other
field) replay the same two commands from the reset store to the same final
contents. -/
theorem claim_C9_witness :
    (⟨.AUTHENTICATED, none, true, none⟩ : Session).state = .AUTHENTICATED ∧
    (⟨.AUTHENTICATED, some ⟨"t1".data, "tenant1:".data⟩, false, none⟩ :
       Session).state = .AUTHENTICATED ∧
    runFromReset "tenant1:".data ⟨.AUTHENTICATED, none, true, none⟩
        [("SET".data, ["k".data, "v".data]), ("GET".data, ["k".data])] =
      runFromReset "tenant1:".data
        ⟨.AUTHENTICATED, some ⟨"t1".data, "tenant1:".data⟩, false, none⟩
        [("SET".data, ["k".data, "v".data]), ("GET".data, ["k".data])] :=
  ⟨rfl, rfl,
   claim_C9_deterministic_replay "tenant1:".data
     ⟨.AUTHENTICATED, none, true, none⟩
     ⟨.AUTHENTICATED, some ⟨"t1".data, "tenant1:".data⟩, false, none⟩
     [("SET".data, ["k".data, "v".data]), ("GET".data, ["k".data])]
     rfl rfl⟩

theorem stripPfx_length_split (pfx : Str) :
    ∀ ks : List Str,
      (ks.filterMap (stripPfx pfx)).length +
        (ks.filter (fun k => !(pfx.isPrefixOf k))).length = ks.length := by
  intro ks
  induction ks with
  | nil => rfl
  | cons k ks ih =>
    by_cases h : pfx.isPrefixOf k = true
    · rw [List.filterMap_cons, List.filter_cons]
      rw [show stripPfx pfx k = some (k.drop pfx.length) from if_pos h]
      rw [if_neg (by simp [h])]
      simp only [List.length_cons]
      omega
    · have h' : pfx.isPrefixOf k = false := by
        cases hb : pfx.isPrefixOf k
        · rfl
        · exact absurd hb h
      rw [List.filterMap_cons, List.filter_cons]
      rw [show stripPfx pfx k = none from if_neg h]
      rw [if_pos (by rw [h']; rfl)]
      simp only [List.length_cons]
      omega

/-- Claim C2: system-wide namespace invariant. Upstream-bound: every rewrite
accepted by `toUpstream` prepends the tenant prefix exactly once at every key
position and leaves every non-key position untouched, so no upstream key is
double- or under-prefixed. Client-bound: every key relayed out of a
key-echoing reply is exactly an upstream key with the tenant prefix removed,
and no relayed key lies under another tenant's namespace, for tenants whose
namespaces are not nested. -/
theorem claim_C2_namespace_invariant (pfx pfxB : Str) (spec : CommandSpec)
    (args out ks outR : List Str) (n : Nat)
    (hab : ¬ pfx <+: pfxB) (hba : ¬ pfxB <+: pfx) :
    (toUpstream args spec pfx = .ok out →
      out.length = args.length ∧
      ∀ i, i < args.length →
        out.getD i [] =
          (if isKeyPos spec.keyArgumentPattern i then pfx ++ args.getD i []
           else args.getD i [])) ∧
    (spec.returnsKeys = true →
      fromUpstream (.keyArr ks) spec pfx = (.keyArr outR, n) →
      ∀ x, x ∈ outR → pfx ++ x ∈ ks ∧ ¬ pfxB <+: (pfx ++ x)) := by
  refine ⟨fun h => toUpstream_getD args out spec pfx h, ?_⟩
  intro hrk hfrom x hx
  unfold fromUpstream at hfrom
  rw [hrk] at hfrom
  simp only [if_true] at hfrom
  have hout : outR = ks.filterMap (stripPfx pfx) :=
    (Reply.keyArr.inj (congrArg Prod.fst hfrom)).symm
  rw [hout, List.mem_filterMap] at hx
  obtain ⟨k, hk, hsk⟩ := hx
  rw [stripPfx_eq_some] at hsk
  subst hsk
  exact ⟨hk, not_prefix_of_other_tenant pfxB pfx x hba hab⟩

/-- Witness for C2 with tenants `a:` and `b:`, a SET rewrite and a KEYS reply
holding one key of each tenant. -/
theorem claim_C2_witness :
    (¬ "a:".data <+: "b:".data) ∧ (¬ "b:".data <+: "a:".data) ∧
    ((toUpstream ["k".data, "v".data] (classify "SET".data) "a:".data =
        .ok ["a:k".data, "v".data] →
      (["a:k".data, "v".data] : List Str).length =
        (["k".data, "v".data] : List Str).length ∧
      ∀ i, i < (["k".data, "v".data] : List Str).length →
        (["a:k".data, "v".data] : List Str).getD i [] =
          (if isKeyPos (classify "SET".data).keyArgumentPattern i
           then "a:".data ++ (["k".data, "v".data] : List Str).getD i []
           else (["k".data, "v".data] : List Str).getD i [])) ∧
    ((classify "SET".data).returnsKeys = true →
      fromUpstream (.keyArr ["a:y".data, "b:z".data]) (classify "SET".data)
          "a:".data = (.keyArr ["y".data], 1) →
      ∀ x, x ∈ (["y".data] : List Str) →
        "a:".data ++ x ∈ (["a:y".data, "b:z".data] : List Str) ∧
        ¬ "b:".data <+: ("a:".data ++ x))) :=
  ⟨by decide, by decide,
   claim_C2_namespace_invariant "a:".data "b:".data (classify "SET".data)
     ["k".data, "v".data] ["a:k".data, "v".data]
     ["a:y".data, "b:z".data] ["y".data] 1 (by decide) (by decide)⟩

/-- Claim C3: for a pattern-enumeration command of tenant A, every relayed
key is an upstream key with A's prefix stripped and never lies under tenant
B's namespace; and A's relayed enumeration reply is identical whether or not
B performed any writes under its own namespace — even for the unbounded
wildcard pattern. -/
theorem claim_C3_enumeration_isolation (pA pB pat : Str) (s : Store)
    (ws : List (Str × Str)) (sess1 sess2 : Session)
    (h1 : sess1.state = .AUTHENTICATED) (h2 : sess2.state = .AUTHENTICATED)
    (hl : globLiteral pA = true) (hab : ¬ pA <+: pB) (hba : ¬ pB <+: pA) :
    (runCommands pA (initRun sess1 (applyWrites pB ws s))
        [("KEYS".data, [pat])]).replies =
      (runCommands pA (initRun sess2 s) [("KEYS".data, [pat])]).replies ∧
    ∀ x, x ∈ (storeKeysMatching s (pA ++ pat)).filterMap (stripPfx pA) →
      pA ++ x ∈ storeKeysMatching s (pA ++ pat) ∧ ¬ pB <+: (pA ++ x) := by
  have hok : toUpstream [pat] (classify "KEYS".data) pA = .ok [pA ++ pat] := by
    rw [classify_KEYS]
    rfl
  have hkeys := storeKeysMatching_applyWrites pA pat pB hl hab hba ws s
  constructor
  · show (stepCommand pA ⟨sess1, applyWrites pB ws s, [], [], 0⟩
        ("KEYS".data, [pat])).replies =
      (stepCommand pA ⟨sess2, s, [], [], 0⟩ ("KEYS".data, [pat])).replies
    rw [stepCommand_parts pA sess1 _ [] [] 0 "KEYS".data [pat] [pA ++ pat]
          h1 hok,
        stepCommand_parts pA sess2 _ [] [] 0 "KEYS".data [pat] [pA ++ pat]
          h2 hok]
    show [Reply.keyArr ((storeKeysMatching (applyWrites pB ws s)
        (pA ++ pat)).filterMap (stripPfx pA))] =
      [Reply.keyArr ((storeKeysMatching s (pA ++ pat)).filterMap
        (stripPfx pA))]
    rw [hkeys]
  · intro x hx
    rw [List.mem_filterMap] at hx
    obtain ⟨k, hk, hsk⟩ := hx
    rw [stripPfx_eq_some] at hsk
    subst hsk
    exact ⟨hk, not_prefix_of_other_tenant pB pA x hba hab⟩

/-- Witness for C3: tenant `a:` enumerates with the unbounded wildcard over a
store holding one key of each tenant, before and after tenant `b:` writes
another key; the replies coincide. -/
theorem claim_C3_witness :
    (⟨.AUTHENTICATED, none, true, none⟩ : Session).state = .AUTHENTICATED ∧
    globLiteral "a:".data = true ∧
    (¬ "a:".data <+: "b:".data) ∧ (¬ "b:".data <+: "a:".data) ∧
    ((runCommands "a:".data
        (initRun ⟨.AUTHENTICATED, none, true, none⟩
          (applyWrites "b:".data [("j".data, "w".data)]
            [("a:k".data, "v".data), ("b:i".data, "u".data)]))
        [("KEYS".data, ["*".data])]).replies =
      (runCommands "a:".data
        (initRun ⟨.AUTHENTICATED, none, true, none⟩
          [("a:k".data, "v".data), ("b:i".data, "u".data)])
        [("KEYS".data, ["*".data])]).replies ∧
     ∀ x, x ∈ (storeKeysMatching
          [("a:k".data, "v".data), ("b:i".data, "u".data)]
          ("a:".data ++ "*".data)).filterMap (stripPfx "a:".data) →
       "a:".data ++ x ∈ storeKeysMatching
          [("a:k".data, "v".data), ("b:i".data, "u".data)]
          ("a:".data ++ "*".data) ∧
       ¬ "b:".data <+: ("a:".data ++ x)) :=
  ⟨rfl, by decide, by decide, by decide,
   claim_C3_enumeration_isolation "a:".data "b:".data "*".data
     [("a:k".data, "v".data), ("b:i".data, "u".data)]
     [("j".data, "w".data)]
     ⟨.AUTHENTICATED, none, true, none⟩ ⟨.AUTHENTICATED, none, true, none⟩
     rfl rfl (by decide) (by decide) (by decide)⟩

/-- Claim C8: when a key-echoing reply contains an entry lacking the
session's prefix, `fromUpstream` drops exactly the offending entries from the
relayed reply and counts each as a recorded integrity fault; every correctly
prefixed entry is still relayed with exactly the prefix length stripped, and
everything relayed originates from a correctly prefixed entry. -/
theorem claim_C8_fail_closed (pfx : Str) (ks outR : List Str) (n : Nat)
    (hfrom : fromUpstream (.keyArr ks) (classify "KEYS".data) pfx =
      (.keyArr outR, n)) :
    outR = ks.filterMap (stripPfx pfx) ∧
    n = (ks.filter (fun k => !(pfx.isPrefixOf k))).length ∧
    outR.length + n = ks.length ∧
    (∀ k, k ∈ ks → pfx.isPrefixOf k = true →
      k.drop pfx.length ∈ outR) ∧
    (∀ x, x ∈ outR →
      ∃ k, k ∈ ks ∧ pfx.isPrefixOf k = true ∧ x = k.drop pfx.length) := by
  unfold fromUpstream at hfrom
  rw [classify_KEYS] at hfrom
  simp only [if_true] at hfrom
  have hout : outR = ks.filterMap (stripPfx pfx) :=
    (Reply.keyArr.inj (congrArg Prod.fst hfrom)).symm
  have hn : n = (ks.filter (fun k => !(pfx.isPrefixOf k))).length :=
    (congrArg Prod.snd hfrom).symm
  refine ⟨hout, hn, ?_, ?_, ?_⟩
  · rw [hout, hn]
    exact stripPfx_length_split pfx ks
  · intro k hk hpre
    rw [hout, List.mem_filterMap]
    exact ⟨k, hk, if_pos hpre⟩
  · intro x hx
    rw [hout, List.mem_filterMap] at hx
    obtain ⟨k, hk, hsk⟩ := hx
    rw [stripPfx_eq_some] at hsk
    refine ⟨k, hk, ?_, ?_⟩
    · rw [hsk]
      exact List.isPrefixOf_iff_prefix.mpr (List.prefix_append pfx x)
    · rw [hsk, List.drop_left]

/-- Witness for C8: a reply holding one prefixed and one rogue key relays
only the stripped prefixed key and records one fault. -/
theorem claim_C8_witness :
    fromUpstream (.keyArr ["a:y".data, "rogue".data])
        (classify "KEYS".data) "a:".data = (.keyArr ["y".data], 1) ∧
    (["y".data] : List Str) =
      (["a:y".data, "rogue".data] : List Str).filterMap
        (stripPfx "a:".data) ∧
    1 = ((["a:y".data, "rogue".data] : List Str).filter
        (fun k => !("a:".data.isPrefixOf k))).length ∧
    (["y".data] : List Str).length + 1 =
      (["a:y".data, "rogue".data] : List Str).length ∧
    (∀ k, k ∈ (["a:y".data, "rogue".data] : List Str) →
      "a:".data.isPrefixOf k = true →
      k.drop "a:".data.length ∈ (["y".data] : List Str)) ∧
    (∀ x, x ∈ (["y".data] : List Str) →
      ∃ k, k ∈ (["a:y".data, "rogue".data] : List Str) ∧
        "a:".data.isPrefixOf k = true ∧ x = k.drop "a:".data.length) := by
  have h := claim_C8_fail_closed "a:".data ["a:y".data, "rogue".data]
    ["y".data] 1 (by rfl)
  exact ⟨by rfl, h.1, h.2.1, h.2.2.1, h.2.2.2.1, h.2.2.2.2⟩

/-- Claim C10: the namespace resolved for a tenant is its username followed
by the `:` delimiter (username `tenant1` yields `tenant1:`), and prefix
addition and stripping operate on the exact prefix string rather than on the
first delimiter occurrence, so client keys may themselves contain `:`. -/
theorem claim_C10_exact_prefix_semantics :
    tenantPfx "tenant1".data = "tenant1:".data ∧
    (∀ r, r ∈ exampleDir → r.identity.pfx = tenantPfx r.username) ∧
    (∀ u k : Str, stripPfx (tenantPfx u) (tenantPfx u ++ k) = some k) ∧
    stripPfx (tenantPfx "tenant1".data)
        (tenantPfx "tenant1".data ++ "user:1:profile".data) =
      some "user:1:profile".data ∧
    ':' ∈ "user:1:profile".data := by
  refine ⟨by decide, ?_, fun u k => stripPfx_append (tenantPfx u) k,
    stripPfx_append (tenantPfx "tenant1".data) "user:1:profile".data,
    by decide⟩
  intro r hr
  cases hr with
  | head => rfl
  | tail _ hmem => cases hmem

/-- Witness for C10: the example directory's record carries the
username-derived namespace, and a key containing the delimiter round-trips
through exact-prefix stripping. -/
theorem claim_C10_witness :
    (⟨"tenant1".data, "pw".data, ⟨"t1".data, tenantPfx "tenant1".data⟩⟩ :
        TenantRecord) ∈ exampleDir ∧
    (⟨"tenant1".data, "pw".data, ⟨"t1".data, tenantPfx "tenant1".data⟩⟩ :
        TenantRecord).identity.pfx = tenantPfx "tenant1".data ∧
    stripPfx (tenantPfx "a:b".data) (tenantPfx "a:b".data ++ "x:y".data) =
      some "x:y".data :=
  ⟨by decide,
   claim_C10_exact_prefix_semantics.2.1
     ⟨"tenant1".data, "pw".data, ⟨"t1".data, tenantPfx "tenant1".data⟩⟩
     (by decide),
   claim_C10_exact_prefix_semantics.2.2.1 "a:b".data "x:y".data⟩

end Proxy
